import Mathlib

/-!
# BashBeatz-CLI: verification of the library tree builder and playback controller

This file gives a shallow embedding of the core of `src/bin/index.js`:

* the library tree builder (the `data.forEach` body of `fetchMusic`,
  lines 189–225), which turns a flat list of track records into an
  Artist → Album → Track hierarchy stored in plain JS objects;
* the playback controller and progress synchronizer
  (`playSong`, `getSongDuration`, `startProgressBar`, `togglePlayPause`,
  lines 27–130), modelled as a state machine driven by an explicit event
  list (the Node event loop delivers `error`/`exit` events and timer
  ticks as separate events after the synchronous body of `playSong`).

JS objects keyed by strings are modelled as association lists in
insertion order (assignment to an existing key keeps its position, a new
key is appended, matching V8 string-key ordering).  JS numbers used for
durations and percentages are modelled as rationals.
-/

namespace BashBeatz

/-- JS string truthiness: `undefined` and `""` are falsy, every other
string is truthy.  Models the tests `item.file && item.metadata` and
`metadata.artist || ...` on (possibly absent) string fields. -/
def jsTruthyStr : Option String → Bool
  | none => false
  | some s => s != ""

/-- JS `v || d` on a possibly-absent string `v`: yields `d` exactly when
`v` is absent or the empty string. -/
def jsOr (v : Option String) (d : String) : String :=
  match v with
  | none => d
  | some s => if s = "" then d else s

/-- Node's `path.basename` (posix, no extension argument): drop trailing
slashes, then take the final path component.  A path consisting only of
slashes (or empty) yields `""`. -/
def basename (p : String) : String :=
  let rev := p.data.reverse
  let rev := rev.dropWhile (fun c => c = '/')
  let rev := rev.takeWhile (fun c => c ≠ '/')
  String.mk rev.reverse

/-! ## JS object maps as association lists -/

/-- Lookup `m[k]` on a string-keyed JS object. -/
def getKey {α : Type} : List (String × α) → String → Option α
  | [], _ => none
  | p :: m, k => if p.1 = k then some p.2 else getKey m k

/-- Assignment `m[k] = v` on a string-keyed JS object: replace the value
at an existing key in place, otherwise append the new key at the end
(JS objects keep string keys in insertion order). -/
def setKey {α : Type} : List (String × α) → String → α → List (String × α)
  | [], k, v => [(k, v)]
  | p :: m, k, v => if p.1 = k then (k, v) :: m else p :: setKey m k v

/-! ## The library tree data model (`fetchMusic`, lines 185–225) -/

/-- A song node: `{ name: title, file: item.file }` (line 213–216). -/
structure TrackNode where
  name : String
  file : String
deriving DecidableEq, Repr

/-- An album node: `{ name: album, extended: false, children: {} }`
(line 204–210); children are keyed by track title. -/
structure AlbumNode where
  name : String
  children : List (String × TrackNode)
deriving DecidableEq, Repr

/-- A top-level node of `musicdata.children`.  Artist nodes are created
as `{ name, extended: false, children: {} }` (lines 196–202), directory
nodes as `{ name, children: {} }` with no `extended` field
(lines 220–223); both live in the same mapping. -/
structure TopNode where
  name : String
  extended : Option Bool
  children : List (String × AlbumNode)
deriving DecidableEq, Repr

/-- The `musicdata.children` mapping, keyed by artist (or directory) name. -/
abbrev RootMap := List (String × TopNode)

/-- One record of the `/songs` response: either
`{ file, metadata: { artist?, album?, title?, year? } }` or
`{ type: "directory", name }`.  Absent fields are `none`. -/
structure Metadata where
  artist : Option String
  album : Option String
  title : Option String
  year : Option String
deriving DecidableEq, Repr

structure Item where
  file : Option String
  metadata : Option Metadata
  typ : Option String
  name : Option String
deriving DecidableEq, Repr

/-- `item.metadata.artist || 'Unknown Artist'` (line 191). -/
def resolveArtist (a : Option String) : String := jsOr a "Unknown Artist"

/-- `item.metadata.album || 'Unknown Album'` (line 192). -/
def resolveAlbum (a : Option String) : String := jsOr a "Unknown Album"

/-- `item.metadata.title || path.basename(item.file)` (line 193). -/
def resolveTitle (t : Option String) (file : String) : String :=
  jsOr t (basename file)

/-- The track branch of the `forEach` body (lines 190–217): lazily
create the artist and album nodes, then insert the track keyed by title
only if that title is not already present (`if (!...children[title])`,
line 212 — first write wins). -/
def insertTrack (root : RootMap) (f : String) (md : Metadata) : RootMap :=
  let artist := resolveArtist md.artist
  let album := resolveAlbum md.album
  let title := resolveTitle md.title f
  let an : TopNode :=
    match getKey root artist with
    | none => ⟨artist, some false, []⟩
    | some an => an
  let aln : AlbumNode :=
    match getKey an.children album with
    | none => ⟨album, []⟩
    | some aln => aln
  let aln' : AlbumNode :=
    match getKey aln.children title with
    | none => ⟨aln.name, setKey aln.children title ⟨title, f⟩⟩
    | some _ => aln
  setKey root artist ⟨an.name, an.extended, setKey an.children album aln'⟩

/-- The directory branch (lines 218–224): overwrite
`musicdata.children[path.basename(item.name)]` with a fresh
`{ name, children: {} }` node.  `path.basename(undefined)` throws, which
aborts the whole build (the exception escapes `forEach` into the `catch`
of `fetchMusic`), hence the `Option` result. -/
def processDir (root : RootMap) (item : Item) : Option RootMap :=
  if item.typ = some "directory" then
    match item.name with
    | some n => some (setKey root (basename n) ⟨basename n, none, []⟩)
    | none => none
  else
    some root

/-- One iteration of the `forEach` body (lines 189–225):
`if (item.file && item.metadata) { ...insert track... } else if
(item.type === 'directory') { ...insert directory... }` — anything else
is silently skipped. -/
def processItem (root : RootMap) (item : Item) : Option RootMap :=
  match item.file, item.metadata with
  | some f, some md =>
    if f = "" then processDir root item else some (insertTrack root f md)
  | _, _ => processDir root item

/-- The pure core of `fetchMusic` (lines 185–225): fold the response
list into the `musicdata.children` mapping, starting from `{}`. -/
def fetchMusic (l : List Item) : Option RootMap :=
  l.foldlM processItem []

/-- Look up the file path of the track at artist `a`, album `al`,
title `t` in the built tree. -/
def trackAt (root : RootMap) (a al t : String) : Option String :=
  (getKey root a).bind fun an =>
    (getKey an.children al).bind fun aln =>
      (getKey aln.children t).map TrackNode.file

/-- `trackAt` through the `Option` result of a build. -/
def trackAtOpt (o : Option RootMap) (a al t : String) : Option String :=
  o.bind fun r => trackAt r a al t

/-! ## The playback controller and progress synchronizer

The module-level mutable variables of `index.js` (lines 13–17) together
with the alive `setInterval` timers and the set of spawned external
processes form the state.  Node's event loop delivers the `error` and
`exit` events of a spawned process, and each firing of an interval
timer, strictly after the synchronous body of `playSong` has completed
(the `await getSongDuration(url)` resumes as a microtask, which runs
before any process event), so `playSong` up to and including
`startProgressBar` is one atomic step and the events are separate
steps. -/

/-- Process handles and timer ids are drawn from fresh counters. -/
structure PlayerState where
  /-- `currentAudio` (line 13): handle of the most recently spawned
  player process; never reset to `null` anywhere in the program. -/
  currentAudio : Option Nat
  /-- `isPlaying` (line 14). -/
  isPlaying : Bool
  /-- `songDuration` in seconds (line 16). -/
  songDuration : ℚ
  /-- `elapsedTime` in seconds (line 17). -/
  elapsedTime : ℚ
  /-- `progressBarInterval` (line 15): the timer id last assigned by
  `setInterval`; `clearInterval` acts on whatever this holds. -/
  progressBarInterval : Option Nat
  /-- Ids of interval timers that are currently scheduled (created by
  `setInterval` and not yet hit by `clearInterval`). -/
  aliveTimers : List Nat
  /-- The last value pushed to `progressBar.setPercent`. -/
  percent : ℚ
  /-- Every string passed to `updateRecordBox`, in order. -/
  notifications : List String
  /-- Spawned player processes (pid, basename of the song path) whose
  `exit` event has not yet fired. -/
  procs : List (Nat × String)
  nextPid : Nat
  nextTimer : Nat
deriving DecidableEq, Repr

/-- State at module load: no audio, not playing, duration and elapsed 0. -/
def initState : PlayerState :=
  { currentAudio := none, isPlaying := false, songDuration := 0,
    elapsedTime := 0, progressBarInterval := none, aliveTimers := [],
    percent := 0, notifications := [], procs := [], nextPid := 0,
    nextTimer := 0 }

/-- `updateRecordBox(msg)` (lines 313–316), recorded as an emission. -/
def notify (s : PlayerState) (msg : String) : PlayerState :=
  { s with notifications := s.notifications ++ [msg] }

/-- `clearInterval(progressBarInterval)`: cancel the timer currently
referenced by `progressBarInterval` (a no-op when it references no
alive timer); the variable itself is not reset. -/
def clearIntervalRef (s : PlayerState) : PlayerState :=
  match s.progressBarInterval with
  | none => s
  | some t => { s with aliveTimers := s.aliveTimers.filter (fun u => u != t) }

/-- `getSongDuration` (lines 68–83): the ffprobe output parsed with
`parseFloat`; a parse failure or probe error (`none`) yields `0`. -/
def getSongDuration (probed : Option ℚ) : ℚ :=
  match probed with
  | none => 0
  | some d => d

/-- `startProgressBar` (lines 85–101) minus the tick callback itself:
`progressBar.setPercent(0)` and
`progressBarInterval = setInterval(..., 1000)` — the previous value of
`progressBarInterval` is overwritten without being cleared. -/
def startProgressBar (s : PlayerState) : PlayerState :=
  { s with percent := 0,
           aliveTimers := s.aliveTimers ++ [s.nextTimer],
           progressBarInterval := some s.nextTimer,
           nextTimer := s.nextTimer + 1 }

/-- The synchronous body of `playSong(songPath)` (lines 27–61): kill any
current process (its `exit` arrives later as an event), spawn ffplay,
set `isPlaying = true`, `elapsedTime = 0`, emit "Now playing", resolve
the duration (`dur` is what `getSongDuration` returned) and start the
progress bar. -/
def playSong (s : PlayerState) (songPath : String) (dur : ℚ) : PlayerState :=
  let s := { s with currentAudio := some s.nextPid,
                    procs := s.procs ++ [(s.nextPid, basename songPath)],
                    nextPid := s.nextPid + 1 }
  let s := { s with isPlaying := true, elapsedTime := 0 }
  let s := notify s ("Now playing: " ++ basename songPath)
  let s := { s with songDuration := dur }
  startProgressBar s

/-- The `'error'` handler attached in `playSong` (lines 44–47): it only
emits "Error playing: <name>" — neither `isPlaying` nor `currentAudio`
is touched.  Fires only for a process that was actually spawned. -/
def onError (s : PlayerState) (pid : Nat) : PlayerState :=
  match s.procs.find? (fun p => p.1 == pid) with
  | none => s
  | some pr => notify s ("Error playing: " ++ pr.2)

/-- The `'exit'` handler attached in `playSong` (lines 49–56): emit
"Playback ended: <name>" when the exit code is not `0` (a `null` code
from a signal also satisfies `code !== 0`), set `isPlaying = false` and
clear whichever timer `progressBarInterval` references.  `currentAudio`
is left pointing at the exited process.  Each process exits once. -/
def onExit (s : PlayerState) (pid : Nat) (code : Option Int) : PlayerState :=
  match s.procs.find? (fun p => p.1 == pid) with
  | none => s
  | some pr =>
    let s := { s with procs := s.procs.filter (fun q => q.1 != pid) }
    let s := if code ≠ some 0 then notify s ("Playback ended: " ++ pr.2) else s
    let s := { s with isPlaying := false }
    clearIntervalRef s

/-- The body of the `setInterval` callback (lines 88–100): only when
`isPlaying && songDuration > 0`, increment `elapsedTime`, push
`(elapsedTime / songDuration) * 100` to the gauge (no clamping), and
clear `progressBarInterval` once `elapsedTime >= songDuration`. -/
def tickBody (s : PlayerState) : PlayerState :=
  if s.isPlaying ∧ 0 < s.songDuration then
    let s := { s with elapsedTime := s.elapsedTime + 1 }
    let s := { s with percent := s.elapsedTime / s.songDuration * 100 }
    if s.songDuration ≤ s.elapsedTime then clearIntervalRef s else s
  else s

/-- A firing of interval timer `t`: only alive timers fire. -/
def progressTick (s : PlayerState) (t : Nat) : PlayerState :=
  if t ∈ s.aliveTimers then tickBody s else s

/-- `togglePlayPause` (lines 114–130): with a process handle, suspend or
resume it and flip `isPlaying`, then report the new state; with no
handle, emit "No audio playing" and change nothing. -/
def togglePlayPause (s : PlayerState) : PlayerState :=
  match s.currentAudio with
  | some _ =>
    let s' := if s.isPlaying then { s with isPlaying := false }
              else { s with isPlaying := true }
    notify s' (if s'.isPlaying then "Playing..." else "Paused")
  | none => notify s "No audio playing"

/-- The externally observable events that drive the state machine. -/
inductive Ev where
  | play (songPath : String) (dur : ℚ)
  | tick (t : Nat)
  | exited (pid : Nat) (code : Option Int)
  | errored (pid : Nat)
  | toggle
deriving Repr

def applyEv (s : PlayerState) : Ev → PlayerState
  | .play p d => playSong s p d
  | .tick t => progressTick s t
  | .exited pid code => onExit s pid code
  | .errored pid => onError s pid
  | .toggle => togglePlayPause s

/-- Run a list of events from a given state. -/
def runFrom (s : PlayerState) (evs : List Ev) : PlayerState :=
  evs.foldl applyEv s

/-- Run a list of events from the initial state. -/
def runEvents (evs : List Ev) : PlayerState :=
  runFrom initState evs

/-! ## Auxiliary notions used by the statements -/

/-- The keys of a JS object map, in order. -/
def keysOf {α : Type} (m : List (String × α)) : List String :=
  m.map Prod.fst

/-- Whether an item takes the track branch of the `forEach`
(`item.file && item.metadata` both truthy, line 190). -/
def isTrackItem (i : Item) : Bool :=
  jsTruthyStr i.file && i.metadata.isSome

/-- The resolved (artist, album, title) of an item taking the track
branch; `none` for any other item. -/
def tripleOf (i : Item) : Option (String × String × String) :=
  match i.file, i.metadata with
  | some f, some md =>
    if f = "" then none
    else some (resolveArtist md.artist, resolveAlbum md.album, resolveTitle md.title f)
  | _, _ => none

/-- Whether an item is a track record resolving to the given
artist/album/title triple. -/
def tripleMatches (a al t : String) (i : Item) : Bool :=
  decide (tripleOf i = some (a, al, t))

/-- The key of the node the directory branch would write for an item
with a directory type tag, if any. -/
def dirTargetAux (i : Item) : Option String :=
  if i.typ = some "directory" then i.name.map basename else none

/-- The top-level key a given item would overwrite with a directory
node, mirroring the branch structure of `processItem`; `none` when the
item takes the track branch or is skipped. -/
def dirTarget (i : Item) : Option String :=
  match i.file, i.metadata with
  | some f, some _ => if f = "" then dirTargetAux i else none
  | _, _ => dirTargetAux i

/-- Well-formedness of an album node: track titles are pairwise
distinct keys, and each track's display name equals its key. -/
def wfAlbum (aln : AlbumNode) : Prop :=
  (keysOf aln.children).Nodup ∧ ∀ p ∈ aln.children, p.2.name = p.1

/-- Well-formedness of a top-level node: album names are pairwise
distinct keys, each album's name equals its key and is well-formed. -/
def wfTop (an : TopNode) : Prop :=
  (keysOf an.children).Nodup ∧ ∀ p ∈ an.children, p.2.name = p.1 ∧ wfAlbum p.2

/-- Well-formedness of the whole tree: top-level names are pairwise
distinct keys, each node's name equals its key and is well-formed. -/
def wfRoot (root : RootMap) : Prop :=
  (keysOf root).Nodup ∧ ∀ p ∈ root, p.2.name = p.1 ∧ wfTop p.2

/-- A track record with artist "X", album "Y", title "Z" and the given
file path. -/
def trackItemXYZ (f : String) : Item :=
  { file := some f, metadata := some ⟨some "X", some "Y", some "Z", none⟩,
    typ := none, name := none }

/-- A directory record `{ type: "directory", name: n }`. -/
def dirItem (n : String) : Item :=
  { file := none, metadata := none, typ := some "directory", name := some n }

/-- The tree built from a single `trackItemXYZ "a.mp3"` record. -/
def rootX : RootMap :=
  [("X", ⟨"X", some false, [("Y", ⟨"Y", [("Z", ⟨"Z", "a.mp3"⟩)]⟩)]⟩)]

/-! ## Lemmas about the JS object-map operations -/

theorem getKey_setKey {α : Type} (m : List (String × α)) (k : String) (v : α)
    (a : String) :
    getKey (setKey m k v) a = if a = k then some v else getKey m a := by
  induction m with
  | nil =>
    simp only [setKey, getKey]
    by_cases h : a = k
    · subst h; simp
    · rw [if_neg (fun hk : k = a => h hk.symm), if_neg h]
  | cons p m ih =>
    obtain ⟨p1, p2⟩ := p
    by_cases hp : p1 = k
    · subst hp
      simp only [setKey, if_pos rfl, getKey]
      by_cases ha : a = p1
      · subst ha; simp
      · rw [if_neg (fun hk : p1 = a => ha hk.symm), if_neg ha,
          if_neg (fun hk : p1 = a => ha hk.symm)]
    · simp only [setKey, if_neg hp, getKey]
      by_cases hpa : p1 = a
      · subst hpa
        rw [if_pos rfl, if_pos rfl, if_neg (fun hak : p1 = k => hp hak)]
      · rw [if_neg hpa, if_neg hpa, ih]

theorem getKey_mem {α : Type} {m : List (String × α)} {k : String} {v : α}
    (h : getKey m k = some v) : (k, v) ∈ m := by
  induction m with
  | nil => simp [getKey] at h
  | cons p m ih =>
    obtain ⟨p1, p2⟩ := p
    simp only [getKey] at h
    by_cases hp : p1 = k
    · subst hp
      rw [if_pos rfl] at h
      simp only [Option.some.injEq] at h
      subst h
      exact List.mem_cons_self _ _
    · rw [if_neg hp] at h
      exact List.mem_cons_of_mem _ (ih h)

theorem mem_setKey {α : Type} {m : List (String × α)} {k : String} {v : α}
    {p : String × α} (h : p ∈ setKey m k v) : p = (k, v) ∨ p ∈ m := by
  induction m with
  | nil => simp [setKey] at h; simp [h]
  | cons q m ih =>
    by_cases hq : q.1 = k
    · simp only [setKey, if_pos hq, List.mem_cons] at h
      rcases h with h | h
      · exact Or.inl h
      · exact Or.inr (List.mem_cons_of_mem _ h)
    · simp only [setKey, if_neg hq, List.mem_cons] at h
      rcases h with h | h
      · exact Or.inr (h ▸ List.mem_cons_self _ _)
      · rcases ih h with h' | h'
        · exact Or.inl h'
        · exact Or.inr (List.mem_cons_of_mem _ h')

theorem keysOf_setKey {α : Type} (m : List (String × α)) (k : String) (v : α) :
    keysOf (setKey m k v)
      = if k ∈ keysOf m then keysOf m else keysOf m ++ [k] := by
  induction m with
  | nil => simp [setKey, keysOf]
  | cons q m ih =>
    by_cases hq : q.1 = k
    · subst hq
      simp [setKey, keysOf]
    · simp only [setKey, if_neg hq, keysOf, List.map_cons] at ih ⊢
      by_cases hk : k ∈ List.map Prod.fst m
      · simp only [ih, if_pos hk]
        rw [if_pos (List.mem_cons_of_mem _ hk)]
      · simp only [ih, if_neg hk]
        rw [if_neg (fun hmem => by
          rcases List.mem_cons.mp hmem with h | h
          · exact hq h.symm
          · exact hk h)]
        simp

theorem nodup_keysOf_setKey {α : Type} {m : List (String × α)} {k : String}
    {v : α} (h : (keysOf m).Nodup) : (keysOf (setKey m k v)).Nodup := by
  rw [keysOf_setKey]
  by_cases hk : k ∈ keysOf m
  · rwa [if_pos hk]
  · rw [if_neg hk]
    exact List.Nodup.append h (List.nodup_singleton k)
      (by simpa [List.disjoint_singleton] using hk)

theorem mem_keysOf_of_getKey {α : Type} {m : List (String × α)} {k : String}
    {v : α} (h : getKey m k = some v) : k ∈ keysOf m :=
  List.mem_map_of_mem Prod.fst (getKey_mem h)

theorem count_keysOf_eq_one {α : Type} {m : List (String × α)} {k : String}
    {v : α} (hn : (keysOf m).Nodup) (h : getKey m k = some v) :
    (keysOf m).count k = 1 := by
  have h1 : (keysOf m).count k ≤ 1 := List.nodup_iff_count_le_one.mp hn k
  have h2 : 0 < (keysOf m).count k :=
    List.count_pos_iff.mpr (mem_keysOf_of_getKey h)
  omega

/-! ## Lemmas about the tree builder -/

/-- The effect of one track insertion on a single lookup: the lookup at
the inserted record's resolved triple becomes the inserted file when it
was previously empty, and every other lookup (including an
already-occupied one — the title guard on line 212) is unchanged. -/
theorem trackAt_insertTrack (root : RootMap) (f : String) (md : Metadata)
    (a al t : String) :
    trackAt (insertTrack root f md) a al t =
      if a = resolveArtist md.artist ∧ al = resolveAlbum md.album ∧
          t = resolveTitle md.title f ∧ trackAt root a al t = none
      then some f
      else trackAt root a al t := by
  simp only [trackAt, insertTrack]
  set A := resolveArtist md.artist with hA
  set AL := resolveAlbum md.album with hAL
  set T := resolveTitle md.title f with hT
  by_cases ha : a = A
  · subst ha
    rw [getKey_setKey, if_pos rfl]
    cases hroot : getKey root A with
    | none =>
      simp only [Option.some_bind, Option.none_bind]
      by_cases hal : al = AL
      · subst hal
        rw [getKey_setKey, if_pos rfl]
        simp only [getKey, Option.some_bind]
        by_cases ht : t = T
        · subst ht
          simp
        · simp [ht, Ne.symm ht]
      · rw [getKey_setKey, if_neg hal]
        simp [getKey, hal]
    | some an =>
      simp only [Option.some_bind]
      by_cases hal : al = AL
      · subst hal
        rw [getKey_setKey, if_pos rfl]
        simp only [Option.some_bind]
        cases halb : getKey an.children AL with
        | none =>
          simp only [getKey, Option.none_bind, Option.some_bind]
          by_cases ht : t = T
          · subst ht
            simp
          · simp [ht, Ne.symm ht]
        | some aln =>
          simp only [Option.some_bind]
          cases htl : getKey aln.children T with
          | none =>
            by_cases ht : t = T
            · subst ht
              rw [getKey_setKey, if_pos rfl, htl]
              simp
            · rw [getKey_setKey, if_neg ht]
              simp [ht]
          | some w =>
            by_cases ht : t = T
            · subst ht
              rw [htl]
              simp
            · simp [ht]
      · rw [getKey_setKey, if_neg hal]
        simp [hal]
  · rw [getKey_setKey, if_neg ha]
    rw [if_neg (fun hc => ha hc.1)]

theorem wfAlbum_fresh (al : String) : wfAlbum ⟨al, []⟩ :=
  ⟨List.nodup_nil, by simp⟩

theorem wfTop_fresh (a : String) (e : Option Bool) : wfTop ⟨a, e, []⟩ :=
  ⟨List.nodup_nil, by simp⟩

theorem wfAlbum_setKey {aln : AlbumNode} (h : wfAlbum aln) {tk : String}
    {tn : TrackNode} (hn : tn.name = tk) :
    wfAlbum ⟨aln.name, setKey aln.children tk tn⟩ := by
  obtain ⟨hnd, hmem⟩ := h
  refine ⟨nodup_keysOf_setKey hnd, ?_⟩
  intro p hp
  rcases mem_setKey hp with rfl | hp
  · exact hn
  · exact hmem p hp

theorem wfTop_setKey {an : TopNode} (h : wfTop an) {alk : String}
    {aln : AlbumNode} (hname : aln.name = alk) (haln : wfAlbum aln) :
    wfTop ⟨an.name, an.extended, setKey an.children alk aln⟩ := by
  obtain ⟨hnd, hmem⟩ := h
  refine ⟨nodup_keysOf_setKey hnd, ?_⟩
  intro p hp
  rcases mem_setKey hp with rfl | hp
  · exact ⟨hname, haln⟩
  · exact hmem p hp

theorem wfRoot_setKey {root : RootMap} (h : wfRoot root) {k : String}
    {an : TopNode} (hname : an.name = k) (han : wfTop an) :
    wfRoot (setKey root k an) := by
  obtain ⟨hnd, hmem⟩ := h
  refine ⟨nodup_keysOf_setKey hnd, ?_⟩
  intro p hp
  rcases mem_setKey hp with rfl | hp
  · exact ⟨hname, han⟩
  · exact hmem p hp

/-- Node lookup at a key yields a node named after the key, with its
own well-formedness, in a well-formed tree. -/
theorem wfRoot_getKey {root : RootMap} (h : wfRoot root) {k : String}
    {an : TopNode} (hg : getKey root k = some an) :
    an.name = k ∧ wfTop an :=
  h.2 (k, an) (getKey_mem hg)

theorem wfTop_getKey {an : TopNode} (h : wfTop an) {k : String}
    {aln : AlbumNode} (hg : getKey an.children k = some aln) :
    aln.name = k ∧ wfAlbum aln :=
  h.2 (k, aln) (getKey_mem hg)

theorem wfAlbum_getKey {aln : AlbumNode} (h : wfAlbum aln) {k : String}
    {tn : TrackNode} (hg : getKey aln.children k = some tn) :
    tn.name = k :=
  h.2 (k, tn) (getKey_mem hg)

/-- Inserting a track preserves well-formedness of the tree. -/
theorem wfRoot_insertTrack {root : RootMap} (h : wfRoot root) (f : String)
    (md : Metadata) : wfRoot (insertTrack root f md) := by
  simp only [insertTrack]
  cases hroot : getKey root (resolveArtist md.artist) with
  | none =>
    dsimp only [getKey]
    exact wfRoot_setKey h rfl
      (wfTop_setKey (wfTop_fresh _ _) rfl
        (wfAlbum_setKey (wfAlbum_fresh _) rfl))
  | some an =>
    dsimp only
    obtain ⟨hanname, hanwf⟩ := wfRoot_getKey h hroot
    cases halb : getKey an.children (resolveAlbum md.album) with
    | none =>
      dsimp only [getKey]
      exact wfRoot_setKey h hanname
        (wfTop_setKey hanwf rfl (wfAlbum_setKey (wfAlbum_fresh _) rfl))
    | some aln =>
      dsimp only
      obtain ⟨halnname, halnwf⟩ := wfTop_getKey hanwf halb
      cases htl : getKey aln.children (resolveTitle md.title f) with
      | none =>
        dsimp only
        exact wfRoot_setKey h hanname
          (wfTop_setKey hanwf halnname (wfAlbum_setKey halnwf rfl))
      | some w =>
        dsimp only
        exact wfRoot_setKey h hanname (wfTop_setKey hanwf halnname halnwf)

/-- Processing any item preserves well-formedness of the tree. -/
theorem wfRoot_processItem {root root' : RootMap} {i : Item}
    (h : wfRoot root) (hstep : processItem root i = some root') :
    wfRoot root' := by
  have hdir : processDir root i = some root' → wfRoot root' := by
    intro hd
    unfold processDir at hd
    by_cases ht : i.typ = some "directory"
    · rw [if_pos ht] at hd
      cases hn : i.name with
      | none => rw [hn] at hd; cases hd
      | some n =>
        rw [hn] at hd
        simp only [Option.some.injEq] at hd
        subst hd
        exact wfRoot_setKey h rfl (wfTop_fresh _ _)
    · rw [if_neg ht] at hd
      simp only [Option.some.injEq] at hd
      subst hd
      exact h
  unfold processItem at hstep
  cases hf : i.file with
  | none =>
    rw [hf] at hstep
    dsimp only at hstep
    exact hdir hstep
  | some f =>
    cases hm : i.metadata with
    | none =>
      rw [hf, hm] at hstep
      dsimp only at hstep
      exact hdir hstep
    | some md =>
      rw [hf, hm] at hstep
      dsimp only at hstep
      by_cases hfe : f = ""
      · rw [if_pos hfe] at hstep
        exact hdir hstep
      · rw [if_neg hfe] at hstep
        simp only [Option.some.injEq] at hstep
        subst hstep
        exact wfRoot_insertTrack h f md

theorem wfRoot_nil : wfRoot [] :=
  ⟨List.nodup_nil, by simp⟩

theorem wfRoot_foldlM :
    ∀ {l : List Item} {root root' : RootMap}, wfRoot root →
      l.foldlM processItem root = some root' → wfRoot root' := by
  intro l
  induction l with
  | nil =>
    intro root root' h hf
    simp only [List.foldlM] at hf
    cases hf
    exact h
  | cons i l ih =>
    intro root root' h hf
    simp only [List.foldlM] at hf
    cases hstep : processItem root i with
    | none => rw [hstep] at hf; cases hf
    | some mid =>
      rw [hstep] at hf
      exact ih (wfRoot_processItem h hstep) hf

/-- Every successfully built tree is well-formed: names match keys and
keys are pairwise distinct at every level. -/
theorem wfRoot_fetchMusic {l : List Item} {root : RootMap}
    (h : fetchMusic l = some root) : wfRoot root :=
  wfRoot_foldlM wfRoot_nil h

theorem processItem_track {i : Item} {f : String} {md : Metadata}
    (hf : i.file = some f) (hne : f ≠ "") (hmd : i.metadata = some md)
    (root : RootMap) :
    processItem root i = some (insertTrack root f md) := by
  unfold processItem
  rw [hf, hmd]
  dsimp only
  rw [if_neg hne]

theorem tripleOf_track {i : Item} {f : String} {md : Metadata}
    (hf : i.file = some f) (hne : f ≠ "") (hmd : i.metadata = some md) :
    tripleOf i = some (resolveArtist md.artist, resolveAlbum md.album,
      resolveTitle md.title f) := by
  unfold tripleOf
  rw [hf, hmd]
  dsimp only
  rw [if_neg hne]

/-- Splitting a successful build of a concatenated list at the seam. -/
theorem foldlM_processItem_append (l₁ l₂ : List Item) (b : RootMap) :
    (l₁ ++ l₂).foldlM processItem b
      = (l₁.foldlM processItem b).bind fun m => l₂.foldlM processItem m := by
  induction l₁ generalizing b with
  | nil => simp [List.foldlM]
  | cons i l₁ ih =>
    simp only [List.cons_append, List.foldlM]
    cases processItem b i with
    | none => rfl
    | some mid => exact ih mid

/-- A track item's lookup survives every later step that is not a
directory write at its artist key. -/
theorem trackAt_isSome_processItem {root root' : RootMap} {j : Item}
    {a al t : String}
    (hstep : processItem root j = some root')
    (hdir : dirTarget j ≠ some a)
    (h : (trackAt root a al t).isSome) :
    (trackAt root' a al t).isSome := by
  have hdircase : ∀ {r' : RootMap}, processDir root j = some r' →
      dirTargetAux j ≠ some a → (trackAt r' a al t).isSome := by
    intro r' hd hna
    unfold processDir at hd
    by_cases ht : j.typ = some "directory"
    · rw [if_pos ht] at hd
      cases hn : j.name with
      | none => rw [hn] at hd; cases hd
      | some n =>
        rw [hn] at hd
        simp only [Option.some.injEq] at hd
        subst hd
        have hne : basename n ≠ a := by
          intro hcon
          apply hna
          unfold dirTargetAux
          rw [if_pos ht, hn]
          simp [hcon]
        unfold trackAt
        rw [getKey_setKey, if_neg (fun hc : a = basename n => hne hc.symm)]
        exact h
    · rw [if_neg ht] at hd
      simp only [Option.some.injEq] at hd
      subst hd
      exact h
  unfold processItem at hstep
  unfold dirTarget at hdir
  cases hf : j.file with
  | none =>
    rw [hf] at hstep hdir
    dsimp only at hstep hdir
    exact hdircase hstep hdir
  | some f =>
    cases hm : j.metadata with
    | none =>
      rw [hf, hm] at hstep hdir
      dsimp only at hstep hdir
      exact hdircase hstep hdir
    | some md =>
      rw [hf, hm] at hstep hdir
      dsimp only at hstep hdir
      by_cases hfe : f = ""
      · rw [if_pos hfe] at hstep hdir
        exact hdircase hstep hdir
      · rw [if_neg hfe] at hstep
        simp only [Option.some.injEq] at hstep
        subst hstep
        rw [trackAt_insertTrack]
        split
        · exact rfl
        · exact h

/-- A track item's lookup survives a whole successful tail of the build
provided no later item directory-writes its artist key. -/
theorem trackAt_isSome_foldlM {l : List Item} {root root' : RootMap}
    {a al t : String}
    (hfold : l.foldlM processItem root = some root')
    (hdir : ∀ j ∈ l, dirTarget j ≠ some a)
    (h : (trackAt root a al t).isSome) :
    (trackAt root' a al t).isSome := by
  induction l generalizing root with
  | nil =>
    simp only [List.foldlM] at hfold
    cases hfold
    exact h
  | cons j l ih =>
    simp only [List.foldlM] at hfold
    cases hstep : processItem root j with
    | none => rw [hstep] at hfold; cases hfold
    | some mid =>
      rw [hstep] at hfold
      exact ih hfold (fun k hk => hdir k (List.mem_cons_of_mem _ hk))
        (trackAt_isSome_processItem hstep (hdir j (List.mem_cons_self _ _)) h)

/-- After inserting a track, the lookup at its resolved triple is
occupied (by the new file if it was free, by the old one otherwise). -/
theorem trackAt_insertTrack_isSome (root : RootMap) (f : String)
    (md : Metadata) :
    (trackAt (insertTrack root f md) (resolveArtist md.artist)
      (resolveAlbum md.album) (resolveTitle md.title f)).isSome := by
  rw [trackAt_insertTrack]
  split
  · exact rfl
  · rename_i hcond
    cases hat : trackAt root (resolveArtist md.artist) (resolveAlbum md.album)
        (resolveTitle md.title f) with
    | none => exact absurd ⟨rfl, rfl, rfl, hat⟩ hcond
    | some x => exact rfl

theorem isTrackItem_elim {i : Item} (h : isTrackItem i = true) :
    ∃ f md, i.file = some f ∧ f ≠ "" ∧ i.metadata = some md := by
  unfold isTrackItem jsTruthyStr at h
  cases hf : i.file with
  | none => rw [hf] at h; simp at h
  | some f =>
    cases hm : i.metadata with
    | none => rw [hf, hm] at h; simp at h
    | some md =>
      rw [hf] at h
      simp only [Bool.and_eq_true, bne_iff_ne] at h
      exact ⟨f, md, rfl, h.1, rfl⟩

theorem trackAt_nil (a al t : String) : trackAt ([] : RootMap) a al t = none :=
  rfl

/-- The built tree of a list of track records answers each lookup with
the file of the first record resolving to that triple — unless the
starting tree already had an entry there, which is then kept. -/
theorem trackAt_foldlM_tracks {l : List Item} {root₀ root' : RootMap}
    {a al t : String}
    (hl : ∀ i ∈ l, isTrackItem i = true)
    (hfold : l.foldlM processItem root₀ = some root') :
    trackAt root' a al t
      = match trackAt root₀ a al t with
        | some x => some x
        | none => (l.find? (tripleMatches a al t)).bind Item.file := by
  induction l generalizing root₀ with
  | nil =>
    simp only [List.foldlM, Option.pure_def, Option.some.injEq] at hfold
    subst hfold
    cases h0 : trackAt root₀ a al t <;> simp
  | cons i l ih =>
    obtain ⟨f, md, hf, hne, hmd⟩ := isTrackItem_elim (hl i (List.mem_cons_self _ _))
    simp only [List.foldlM] at hfold
    rw [processItem_track hf hne hmd] at hfold
    have hfold' : l.foldlM processItem (insertTrack root₀ f md) = some root' :=
      hfold
    rw [ih (fun j hj => hl j (List.mem_cons_of_mem _ hj)) hfold',
      trackAt_insertTrack]
    have htr := tripleOf_track hf hne hmd
    by_cases hmatch : a = resolveArtist md.artist ∧
        al = resolveAlbum md.album ∧ t = resolveTitle md.title f
    · obtain ⟨hma, hmal, hmt⟩ := hmatch
      have hp : tripleMatches a al t i = true := by
        unfold tripleMatches
        rw [htr, hma, hmal, hmt]
        simp
      rw [List.find?_cons_of_pos _ hp]
      cases h0 : trackAt root₀ a al t with
      | none =>
        rw [if_pos ⟨hma, hmal, hmt, rfl⟩]
        simp [hf]
      | some x =>
        rw [if_neg (fun hc => Option.noConfusion hc.2.2.2)]
    · have hp : tripleMatches a al t i = false := by
        unfold tripleMatches
        rw [htr]
        simp only [decide_eq_false_iff_not, Option.some.injEq]
        intro hc
        rw [Prod.mk.injEq, Prod.mk.injEq] at hc
        exact hmatch ⟨hc.1.symm, hc.2.1.symm, hc.2.2.symm⟩
      rw [List.find?_cons_of_neg _ (by simp [hp])]
      rw [if_neg (fun hc => hmatch ⟨hc.1, hc.2.1, hc.2.2.1⟩)]

theorem trackAt_unpack {root : RootMap} {a al t : String}
    (h : (trackAt root a al t).isSome) :
    ∃ an aln tn, getKey root a = some an ∧
      getKey an.children al = some aln ∧ getKey aln.children t = some tn := by
  unfold trackAt at h
  cases hg1 : getKey root a with
  | none => rw [hg1] at h; simp at h
  | some an =>
    rw [hg1] at h
    simp only [Option.some_bind] at h
    cases hg2 : getKey an.children al with
    | none => rw [hg2] at h; simp at h
    | some aln =>
      rw [hg2] at h
      simp only [Option.some_bind] at h
      cases hg3 : getKey aln.children t with
      | none => rw [hg3] at h; simp at h
      | some tn => exact ⟨an, aln, tn, rfl, hg2, hg3⟩

/-! ## Claim C1 -/

/-- C1.  The claim says that for records with identical resolved
artist/album/title the LAST file path wins.  Refuted: with two records
`⟨X, Y, Z⟩` carrying files "a.mp3" then "b.mp3", the built tree stores
"a.mp3" — the guard `if (!...children[title])` on line 212 makes the
first write win. -/
theorem C1_counterexample :
    trackAtOpt (fetchMusic [trackItemXYZ "a.mp3", trackItemXYZ "b.mp3"])
        "X" "Y" "Z" = some "a.mp3" ∧
    ("a.mp3" : String) ≠ "b.mp3" :=
  ⟨rfl, by decide⟩

/-- C1 (amended): for every list of track records containing two or more
records with identical resolved artist/album/title, the built tree has
exactly one TrackNode under that artist/album for that title, and its
file path equals the file path of the FIRST such record in input order
(first-write-wins; later duplicates are ignored). -/
theorem C1_first_write_wins (l : List Item) (a al t : String) (i₀ : Item)
    (root : RootMap)
    (hl : ∀ i ∈ l, isTrackItem i = true)
    (hfind : l.find? (tripleMatches a al t) = some i₀)
    (hmulti : 2 ≤ l.countP (tripleMatches a al t))
    (hbuild : fetchMusic l = some root) :
    trackAt root a al t = i₀.file ∧
    ∃ an aln, getKey root a = some an ∧ getKey an.children al = some aln ∧
      (keysOf aln.children).count t = 1 := by
  have hmain : trackAt root a al t
      = (l.find? (tripleMatches a al t)).bind Item.file := by
    have h := @trackAt_foldlM_tracks l [] root a al t hl hbuild
    rwa [trackAt_nil] at h
  rw [hfind] at hmain
  simp only [Option.some_bind] at hmain
  refine ⟨hmain, ?_⟩
  have hmem : i₀ ∈ l := List.mem_of_find?_eq_some hfind
  obtain ⟨f, md, hf, hne, hmd⟩ := isTrackItem_elim (hl i₀ hmem)
  have hsome : (trackAt root a al t).isSome = true := by
    rw [hmain, hf]; rfl
  obtain ⟨an, aln, tn, hg1, hg2, hg3⟩ := trackAt_unpack hsome
  have hwf := wfRoot_fetchMusic hbuild
  obtain ⟨hname1, hwftop⟩ := wfRoot_getKey hwf hg1
  obtain ⟨hname2, hwfalb⟩ := wfTop_getKey hwftop hg2
  exact ⟨an, aln, hg1, hg2, count_keysOf_eq_one hwfalb.1 hg3⟩

theorem C1_first_write_wins_witness :
    2 ≤ ([trackItemXYZ "a.mp3", trackItemXYZ "b.mp3"].countP
          (tripleMatches "X" "Y" "Z")) ∧
    (trackAt rootX "X" "Y" "Z" = (trackItemXYZ "a.mp3").file ∧
      ∃ an aln, getKey rootX "X" = some an ∧
        getKey an.children "Y" = some aln ∧
        (keysOf aln.children).count "Z" = 1) :=
  ⟨by decide,
    C1_first_write_wins [trackItemXYZ "a.mp3", trackItemXYZ "b.mp3"]
      "X" "Y" "Z" (trackItemXYZ "a.mp3") rootX (by decide) (by decide)
      (by decide) rfl⟩

/-! ## Claim C2 -/

/-- C2.  The claim says every record carrying file and metadata yields a
TrackNode reachable under its resolved artist/album.  Refuted: a later
directory entry with the same base name as the artist overwrites the
whole ArtistNode (line 220), deleting the track. -/
theorem C2_counterexample :
    fetchMusic [trackItemXYZ "a.mp3", dirItem "X"]
      = some [("X", ⟨"X", none, []⟩)] ∧
    trackAtOpt (fetchMusic [trackItemXYZ "a.mp3", dirItem "X"])
      "X" "Y" "Z" = none :=
  ⟨rfl, rfl⟩

/-- C2 (amended): for every record carrying a nonempty file path and
metadata, if the build succeeds and no LATER entry is a directory whose
base name equals the record's resolved artist, the built tree holds a
TrackNode reachable via exactly one Artist→Album path whose labels are
the default-substituted artist, album and title. -/
theorem C2_track_path (l₁ l₂ : List Item) (i : Item) (f : String)
    (md : Metadata) (root : RootMap)
    (hf : i.file = some f) (hne : f ≠ "") (hmd : i.metadata = some md)
    (hbuild : fetchMusic (l₁ ++ i :: l₂) = some root)
    (hnodir : ∀ j ∈ l₂, dirTarget j ≠ some (resolveArtist md.artist)) :
    ∃ an aln tn,
      getKey root (resolveArtist md.artist) = some an ∧
      an.name = resolveArtist md.artist ∧
      getKey an.children (resolveAlbum md.album) = some aln ∧
      aln.name = resolveAlbum md.album ∧
      getKey aln.children (resolveTitle md.title f) = some tn ∧
      tn.name = resolveTitle md.title f ∧
      (keysOf root).count (resolveArtist md.artist) = 1 ∧
      (keysOf an.children).count (resolveAlbum md.album) = 1 ∧
      (keysOf aln.children).count (resolveTitle md.title f) = 1 := by
  have hwf := wfRoot_fetchMusic hbuild
  unfold fetchMusic at hbuild
  rw [foldlM_processItem_append] at hbuild
  cases hmid : (l₁.foldlM processItem ([] : RootMap)) with
  | none => rw [hmid] at hbuild; cases hbuild
  | some m₀ =>
    rw [hmid] at hbuild
    simp only [Option.some_bind] at hbuild
    simp only [List.foldlM] at hbuild
    rw [processItem_track hf hne hmd] at hbuild
    have hbuild' : l₂.foldlM processItem (insertTrack m₀ f md) = some root :=
      hbuild
    have hsome := trackAt_isSome_foldlM hbuild' hnodir
      (trackAt_insertTrack_isSome m₀ f md)
    obtain ⟨an, aln, tn, hg1, hg2, hg3⟩ := trackAt_unpack hsome
    obtain ⟨hname1, hwftop⟩ := wfRoot_getKey hwf hg1
    obtain ⟨hname2, hwfalb⟩ := wfTop_getKey hwftop hg2
    have hname3 := wfAlbum_getKey hwfalb hg3
    exact ⟨an, aln, tn, hg1, hname1, hg2, hname2, hg3, hname3,
      count_keysOf_eq_one hwf.1 hg1, count_keysOf_eq_one hwftop.1 hg2,
      count_keysOf_eq_one hwfalb.1 hg3⟩

theorem C2_track_path_witness :
    ("a.mp3" : String) ≠ "" ∧
    (∃ an aln tn,
      getKey rootX (resolveArtist (some "X")) = some an ∧
      an.name = resolveArtist (some "X") ∧
      getKey an.children (resolveAlbum (some "Y")) = some aln ∧
      aln.name = resolveAlbum (some "Y") ∧
      getKey aln.children (resolveTitle (some "Z") "a.mp3") = some tn ∧
      tn.name = resolveTitle (some "Z") "a.mp3" ∧
      (keysOf rootX).count (resolveArtist (some "X")) = 1 ∧
      (keysOf an.children).count (resolveAlbum (some "Y")) = 1 ∧
      (keysOf aln.children).count (resolveTitle (some "Z") "a.mp3") = 1) :=
  ⟨by decide,
    C2_track_path [] [] (trackItemXYZ "a.mp3") "a.mp3"
      ⟨some "X", some "Y", some "Z", none⟩ rootX rfl (by decide) rfl rfl
      (by simp)⟩

/-! ## Claim C4 -/

/-- C4.  The claim says a directory node is never merged into the
ArtistNode mapping and cannot replace an ArtistNode.  Refuted: the same
`musicdata.children` object holds both, and the unconditional assignment
on line 220 replaces the ArtistNode "X" (with its album and track) by an
empty directory node. -/
theorem C4_counterexample :
    fetchMusic [trackItemXYZ "a.mp3"] = some rootX ∧
    fetchMusic [trackItemXYZ "a.mp3", dirItem "X"]
      = some [("X", ⟨"X", none, []⟩)] :=
  ⟨rfl, rfl⟩

/-- C4 (amended): every directory-branch entry writes a top-level node
keyed by its base name with an empty children mapping and no
Artist/Album nesting, into the SAME top-level mapping as ArtistNodes —
unconditionally overwriting any existing entry (including an
ArtistNode) at that key. -/
theorem C4_directory_overwrites (root : RootMap) (i : Item) (n : String)
    (hshape : isTrackItem i = false)
    (htyp : i.typ = some "directory")
    (hname : i.name = some n) :
    processItem root i
      = some (setKey root (basename n) ⟨basename n, none, []⟩) ∧
    getKey (setKey root (basename n) ⟨basename n, none, []⟩) (basename n)
      = some ⟨basename n, none, []⟩ := by
  constructor
  · have hdir : processDir root i
        = some (setKey root (basename n) ⟨basename n, none, []⟩) := by
      unfold processDir
      rw [if_pos htyp, hname]
    unfold processItem
    cases hfl : i.file with
    | none => cases hm : i.metadata <;> exact hdir
    | some f =>
      cases hm : i.metadata with
      | none => exact hdir
      | some md =>
        unfold isTrackItem jsTruthyStr at hshape
        rw [hfl, hm] at hshape
        simp only [Option.isSome_some, Bool.and_true,
          bne_eq_false_iff_eq] at hshape
        dsimp only
        rw [if_pos hshape]
        exact hdir
  · rw [getKey_setKey, if_pos rfl]

theorem C4_directory_overwrites_witness :
    isTrackItem (dirItem "X") = false ∧
    (processItem rootX (dirItem "X")
        = some (setKey rootX (basename "X") ⟨basename "X", none, []⟩) ∧
      getKey (setKey rootX (basename "X") ⟨basename "X", none, []⟩)
        (basename "X") = some ⟨basename "X", none, []⟩) :=
  ⟨by decide, C4_directory_overwrites rootX (dirItem "X") "X" (by decide)
    rfl rfl⟩

/-! ## Claim C10 -/

/-- C10: a present-but-empty artist, album or title field is treated
exactly like an absent one, because the source tests presence with `||`
(truthiness) rather than key existence: empty artist becomes
"Unknown Artist", empty album "Unknown Album", empty title the base
filename of the file path. -/
theorem C10_empty_fields_use_defaults (f : String) (y : Option String)
    (h : f ≠ "") :
    resolveArtist (some "") = "Unknown Artist" ∧
    resolveAlbum (some "") = "Unknown Album" ∧
    resolveTitle (some "") f = basename f ∧
    resolveArtist (some "") = resolveArtist none ∧
    resolveAlbum (some "") = resolveAlbum none ∧
    resolveTitle (some "") f = resolveTitle none f ∧
    fetchMusic [⟨some f, some ⟨some "", some "", some "", y⟩, none, none⟩]
      = fetchMusic [⟨some f, some ⟨none, none, none, y⟩, none, none⟩] ∧
    trackAtOpt
      (fetchMusic [⟨some f, some ⟨some "", some "", some "", y⟩, none, none⟩])
      "Unknown Artist" "Unknown Album" (basename f) = some f := by
  refine ⟨rfl, rfl, rfl, rfl, rfl, rfl, ?_, ?_⟩
  · unfold fetchMusic
    simp only [List.foldlM]
    rw [processItem_track rfl h rfl, processItem_track rfl h rfl]
    rfl
  · unfold fetchMusic
    simp only [List.foldlM]
    rw [processItem_track rfl h rfl]
    show trackAt (insertTrack [] f ⟨some "", some "", some "", y⟩)
      "Unknown Artist" "Unknown Album" (basename f) = some f
    rw [trackAt_insertTrack]
    rw [if_pos ⟨rfl, rfl, rfl, rfl⟩]

theorem C10_empty_fields_use_defaults_witness :
    ("song.mp3" : String) ≠ "" ∧
    trackAtOpt
      (fetchMusic [⟨some "song.mp3", some ⟨some "", some "", some "", none⟩,
        none, none⟩])
      "Unknown Artist" "Unknown Album" (basename "song.mp3")
      = some "song.mp3" :=
  ⟨by decide,
    (C10_empty_fields_use_defaults "song.mp3" none (by decide)).2.2.2.2.2.2.2⟩

/-! ## Lemmas about the playback state machine -/

theorem clearIntervalRef_elapsedTime (s : PlayerState) :
    (clearIntervalRef s).elapsedTime = s.elapsedTime := by
  unfold clearIntervalRef
  cases s.progressBarInterval <;> rfl

theorem clearIntervalRef_percent (s : PlayerState) :
    (clearIntervalRef s).percent = s.percent := by
  unfold clearIntervalRef
  cases s.progressBarInterval <;> rfl

theorem clearIntervalRef_isPlaying (s : PlayerState) :
    (clearIntervalRef s).isPlaying = s.isPlaying := by
  unfold clearIntervalRef
  cases s.progressBarInterval <;> rfl

theorem clearIntervalRef_currentAudio (s : PlayerState) :
    (clearIntervalRef s).currentAudio = s.currentAudio := by
  unfold clearIntervalRef
  cases s.progressBarInterval <;> rfl

/-- After `clearInterval(progressBarInterval)` the timer it referenced
is no longer alive. -/
theorem not_mem_clearIntervalRef {s : PlayerState} {tm : Nat}
    (h : s.progressBarInterval = some tm) :
    tm ∉ (clearIntervalRef s).aliveTimers := by
  unfold clearIntervalRef
  rw [h]
  simp [List.mem_filter]

/-! ## Claim C3 -/

/-- C3.  The claim says the displayed percent is
`min(100, elapsed / duration * 100)` and never exceeds 100.  Refuted:
line 91 computes `(elapsedTime / songDuration) * 100` with no clamping,
so a session with the fractional duration 0.5 s shows 200 % after its
first tick. -/
theorem C3_counterexample :
    (runEvents [Ev.play "x.mp3" (1/2), Ev.tick 0]).percent = 200 ∧
    ¬ (runEvents [Ev.play "x.mp3" (1/2), Ev.tick 0]).percent ≤ 100 ∧
    min 100 ((runEvents [Ev.play "x.mp3" (1/2), Ev.tick 0]).percent)
      = 100 := by
  refine ⟨?_, ?_, ?_⟩
  · with_unfolding_all rfl
  · with_unfolding_all decide
  · with_unfolding_all decide

/-- C3 (amended): while a session with positive duration is playing,
each tick of an alive timer increments `elapsedTime` by exactly 1 and
sets the displayed percent to `elapsedTime / songDuration * 100`
(unclamped — it can exceed 100 on the final tick of a fractional
duration); after 50 ticks with duration 200 the percent is exactly 25;
a tick that fires while `isPlaying` is false changes nothing. -/
theorem C3_tick_behavior (s : PlayerState) (t : Nat)
    (ht : t ∈ s.aliveTimers) :
    (s.isPlaying = true → 0 < s.songDuration →
      (progressTick s t).elapsedTime = s.elapsedTime + 1 ∧
      (progressTick s t).percent
        = (s.elapsedTime + 1) / s.songDuration * 100) ∧
    (s.isPlaying = false → progressTick s t = s) ∧
    (runEvents (Ev.play "x.mp3" 200 :: List.replicate 50 (Ev.tick 0))).percent
      = 25 := by
  refine ⟨?_, ?_, ?_⟩
  · intro hp hd
    unfold progressTick tickBody
    rw [if_pos ht, if_pos ⟨hp, hd⟩]
    dsimp only
    constructor
    · split
      · rw [clearIntervalRef_elapsedTime]
      · rfl
    · split
      · rw [clearIntervalRef_percent]
      · rfl
  · intro hnp
    unfold progressTick tickBody
    rw [if_pos ht,
      if_neg (fun hc => by rw [hnp] at hc; exact Bool.noConfusion hc.1)]
  · set_option maxRecDepth 4000 in with_unfolding_all rfl

theorem C3_tick_behavior_witness :
    0 ∈ (runEvents [Ev.play "x.mp3" 200]).aliveTimers ∧
    (((runEvents [Ev.play "x.mp3" 200]).isPlaying = true →
        0 < (runEvents [Ev.play "x.mp3" 200]).songDuration →
        (progressTick (runEvents [Ev.play "x.mp3" 200]) 0).elapsedTime
          = (runEvents [Ev.play "x.mp3" 200]).elapsedTime + 1 ∧
        (progressTick (runEvents [Ev.play "x.mp3" 200]) 0).percent
          = ((runEvents [Ev.play "x.mp3" 200]).elapsedTime + 1)
              / (runEvents [Ev.play "x.mp3" 200]).songDuration * 100) ∧
      ((runEvents [Ev.play "x.mp3" 200]).isPlaying = false →
        progressTick (runEvents [Ev.play "x.mp3" 200]) 0
          = runEvents [Ev.play "x.mp3" 200]) ∧
      (runEvents (Ev.play "x.mp3" 200
        :: List.replicate 50 (Ev.tick 0))).percent = 25) :=
  ⟨by with_unfolding_all decide,
    C3_tick_behavior (runEvents [Ev.play "x.mp3" 200]) 0
      (by with_unfolding_all decide)⟩

/-! ## Claim C5 -/

/-- C5.  The claim says a spawn failure leaves no active session
(`isPlaying = false`, no session state).  Refuted: the `'error'` handler
(lines 44–47) only emits the notification; after `play` then the error
event, `isPlaying` is still `true` and `currentAudio` still holds the
handle. -/
theorem C5_counterexample :
    (runEvents [Ev.play "x.mp3" 0, Ev.errored 0]).isPlaying = true ∧
    (runEvents [Ev.play "x.mp3" 0, Ev.errored 0]).currentAudio = some 0 ∧
    (runEvents [Ev.play "x.mp3" 0, Ev.errored 0]).notifications
      = ["Now playing: x.mp3", "Error playing: x.mp3"] :=
  ⟨rfl, rfl, rfl⟩

/-- C5 (amended): on spawn failure the controller emits
"Error playing: <name>" but clears nothing — the whole state change of
the error handler is that one notification; in particular `isPlaying`
and the process handle keep their prior values. -/
theorem C5_error_only_notifies (s : PlayerState) (pid : Nat)
    (pr : Nat × String)
    (h : s.procs.find? (fun p => p.1 == pid) = some pr) :
    onError s pid = notify s ("Error playing: " ++ pr.2) ∧
    (onError s pid).isPlaying = s.isPlaying ∧
    (onError s pid).currentAudio = s.currentAudio := by
  have h1 : onError s pid = notify s ("Error playing: " ++ pr.2) := by
    unfold onError
    rw [h]
  exact ⟨h1, by rw [h1]; rfl, by rw [h1]; rfl⟩

theorem C5_error_only_notifies_witness :
    (runEvents [Ev.play "x.mp3" 0]).procs.find? (fun p => p.1 == 0)
      = some (0, "x.mp3") ∧
    (onError (runEvents [Ev.play "x.mp3" 0]) 0
        = notify (runEvents [Ev.play "x.mp3" 0])
            ("Error playing: " ++ "x.mp3") ∧
      (onError (runEvents [Ev.play "x.mp3" 0]) 0).isPlaying
        = (runEvents [Ev.play "x.mp3" 0]).isPlaying ∧
      (onError (runEvents [Ev.play "x.mp3" 0]) 0).currentAudio
        = (runEvents [Ev.play "x.mp3" 0]).currentAudio) :=
  ⟨rfl, C5_error_only_notifies (runEvents [Ev.play "x.mp3" 0]) 0
    (0, "x.mp3") rfl⟩

/-! ## Claim C6 -/

/-- C6.  The claim says every process exit clears the session so that no
session handle remains.  Refuted: the `'exit'` handler (lines 49–56)
sets `isPlaying = false` and cancels the timer but never resets
`currentAudio`, so the handle of the exited process remains. -/
theorem C6_counterexample :
    (runEvents [Ev.play "x.mp3" 5, Ev.exited 0 (some 0)]).isPlaying
      = false ∧
    (runEvents [Ev.play "x.mp3" 5, Ev.exited 0 (some 0)]).aliveTimers
      = [] ∧
    (runEvents [Ev.play "x.mp3" 5, Ev.exited 0 (some 0)]).currentAudio
      = some 0 ∧
    (some 0 : Option Nat) ≠ none := by
  refine ⟨?_, ?_, ?_, by decide⟩ <;> with_unfolding_all rfl

/-- C6 (amended): on every exit of a spawned process, regardless of exit
code or signal, `isPlaying` becomes false and the timer referenced by
`progressBarInterval` is cancelled — but the process handle
(`currentAudio`) is NOT cleared. -/
theorem C6_exit_halts_but_keeps_handle (s : PlayerState) (pid : Nat)
    (code : Option Int) (pr : Nat × String)
    (h : s.procs.find? (fun p => p.1 == pid) = some pr) :
    (onExit s pid code).isPlaying = false ∧
    (∀ tm, s.progressBarInterval = some tm →
      tm ∉ (onExit s pid code).aliveTimers) ∧
    (onExit s pid code).currentAudio = s.currentAudio := by
  unfold onExit
  rw [h]
  dsimp only
  refine ⟨?_, ?_, ?_⟩
  · rw [clearIntervalRef_isPlaying]
  · intro tm htm
    apply not_mem_clearIntervalRef
    split <;> exact htm
  · rw [clearIntervalRef_currentAudio]
    split <;> rfl

theorem C6_exit_halts_but_keeps_handle_witness :
    (runEvents [Ev.play "x.mp3" 5]).procs.find? (fun p => p.1 == 0)
      = some (0, "x.mp3") ∧
    ((onExit (runEvents [Ev.play "x.mp3" 5]) 0 (some 0)).isPlaying
        = false ∧
      (∀ tm, (runEvents [Ev.play "x.mp3" 5]).progressBarInterval = some tm →
        tm ∉ (onExit (runEvents [Ev.play "x.mp3" 5]) 0 (some 0)).aliveTimers) ∧
      (onExit (runEvents [Ev.play "x.mp3" 5]) 0 (some 0)).currentAudio
        = (runEvents [Ev.play "x.mp3" 5]).currentAudio) :=
  ⟨by with_unfolding_all rfl,
    C6_exit_halts_but_keeps_handle (runEvents [Ev.play "x.mp3" 5]) 0
      (some 0) (0, "x.mp3") (by with_unfolding_all rfl)⟩

/-! ## Claim C7 -/

/-- C7.  The claim says at most one tick timer is ever alive, the prior
timer being cancelled when a new session starts.  Refuted: `playSong`
never calls `clearInterval`; `startProgressBar` (line 88) overwrites
`progressBarInterval` with a new `setInterval` id, so after two
consecutive `play` calls both timers 0 and 1 are alive. -/
theorem C7_counterexample :
    (runEvents [Ev.play "a.mp3" 5, Ev.play "b.mp3" 5]).aliveTimers
      = [0, 1] ∧
    1 < (runEvents [Ev.play "a.mp3" 5, Ev.play "b.mp3" 5]).aliveTimers.length := by
  constructor
  · with_unfolding_all rfl
  · with_unfolding_all decide

/-- C7 (amended): starting a new session adds a fresh tick timer and
cancels none — the previous timer stays alive and only the reference
`progressBarInterval` is overwritten; a timer dies only through the exit
handler or a tick reaching the duration, each clearing whichever timer
`progressBarInterval` then references. -/
theorem C7_play_never_cancels (s : PlayerState) (p : String) (d : ℚ) :
    (playSong s p d).aliveTimers = s.aliveTimers ++ [s.nextTimer] ∧
    (playSong s p d).progressBarInterval = some s.nextTimer := by
  unfold playSong startProgressBar notify
  exact ⟨rfl, rfl⟩

/-! ## Claim C8 -/

/-- C8: when duration resolution yields 0 (in particular when the probe
output fails to parse), ticks are complete no-ops: the guard
`isPlaying && songDuration > 0` (line 89) fails, so no tick changes any
state — `elapsedTime` and the displayed percent never move, and nothing
errors. -/
theorem C8_zero_duration (s : PlayerState) (ts : List Nat)
    (h : s.songDuration = getSongDuration none) :
    runFrom s (ts.map Ev.tick) = s := by
  have hz : s.songDuration = 0 := h
  have hstep : ∀ t, applyEv s (Ev.tick t) = s := by
    intro t
    show progressTick s t = s
    have hbody : tickBody s = s := by
      unfold tickBody
      rw [if_neg (fun hc => absurd (hz ▸ hc.2) (lt_irrefl 0))]
    unfold progressTick
    rw [hbody, ite_self]
  induction ts with
  | nil => rfl
  | cons t ts ih =>
    simp only [List.map_cons, runFrom, List.foldl] at ih ⊢
    rw [hstep t]
    exact ih

theorem C8_zero_duration_witness :
    (runEvents [Ev.play "x.mp3" (getSongDuration none)]).songDuration
      = getSongDuration none ∧
    runFrom (runEvents [Ev.play "x.mp3" (getSongDuration none)])
        ([0, 0, 0].map Ev.tick)
      = runEvents [Ev.play "x.mp3" (getSongDuration none)] :=
  ⟨rfl, C8_zero_duration (runEvents [Ev.play "x.mp3" (getSongDuration none)])
    [0, 0, 0] rfl⟩

/-! ## Claim C9 -/

/-- C9: with no session (`currentAudio` null), any number of
`togglePlayPause` calls leaves the playback state — handle, `isPlaying`,
`elapsedTime`, `songDuration` — unchanged and emits "No audio playing"
once per call (lines 126–129). -/
theorem C9_toggle_no_session (s : PlayerState) (n : Nat)
    (h : s.currentAudio = none) :
    (runFrom s (List.replicate n Ev.toggle)).currentAudio
      = s.currentAudio ∧
    (runFrom s (List.replicate n Ev.toggle)).isPlaying = s.isPlaying ∧
    (runFrom s (List.replicate n Ev.toggle)).elapsedTime
      = s.elapsedTime ∧
    (runFrom s (List.replicate n Ev.toggle)).songDuration
      = s.songDuration ∧
    (runFrom s (List.replicate n Ev.toggle)).notifications
      = s.notifications ++ List.replicate n "No audio playing" := by
  induction n generalizing s with
  | zero => simp [runFrom, List.replicate]
  | succ n ih =>
    have hstep : applyEv s Ev.toggle = notify s "No audio playing" := by
      show togglePlayPause s = _
      unfold togglePlayPause
      rw [h]
    obtain ⟨h1, h2, h3, h4, h5⟩ := ih (notify s "No audio playing") h
    simp only [List.replicate, runFrom, List.foldl] at h1 h2 h3 h4 h5 ⊢
    rw [hstep]
    refine ⟨h1.trans rfl, h2.trans rfl, h3.trans rfl, h4.trans rfl, ?_⟩
    rw [h5]
    show (s.notifications ++ ["No audio playing"])
        ++ List.replicate n "No audio playing" = _
    rw [List.append_assoc, List.singleton_append]

theorem C9_toggle_no_session_witness :
    initState.currentAudio = none ∧
    (runFrom initState (List.replicate 2 Ev.toggle)).notifications
      = initState.notifications ++ List.replicate 2 "No audio playing" :=
  ⟨rfl, (C9_toggle_no_session initState 2 rfl).2.2.2.2⟩

end BashBeatz
